import Mathlib

/-!
Shallow embedding of the daily news digest pipeline implemented in
`daily_digest_india_local.py`, together with theorems settling the design
claims about it.

Modelling conventions:
* Python strings are modelled as `List Char` (abbreviated `Str`); Python's
  `None`-vs-string optionals become `Option Str`, and Python truthiness of a
  string (empty = falsy) is modelled explicitly (`optTruthy`, `pyStrOr`).
* Network effects (HTTP fetch + HTML parsing, the generative summarization
  call) are modelled as oracle functions passed in as parameters; each oracle
  result type covers the exception outcomes the source code catches, so every
  caught-exception path of the source is a value-level case here.
* Module-level configuration globals (`ALLOW_DOMAINS`, `INCLUDE_KEYWORDS`,
  `EXCLUDE_KEYWORDS`, `MIN_ARTICLE_LENGTH`) become an explicit `Config`
  record threaded through the functions that read them.
* The persisted `sent.json` file is modelled at the JSON-value level
  (`Json` inductive); file absence and unparseable contents are the two
  `Option` layers of `load_sent_set`'s argument.
* Feed timestamps are abstracted to `Nat`; `datetime.utcnow()` becomes an
  explicit `now` parameter.  ISO formatting of the stored timestamp is not
  modelled (no claim concerns it).
-/

abbrev Str := List Char

/-- ASCII whitespace, the characters matched by Python's `\s` (and stripped
by `str.strip()`) for the ASCII inputs this pipeline handles. -/
def isPyWs (c : Char) : Bool :=
  c = ' ' || c = '\t' || c = '\n' || c = '\r' || c = '\x0b' || c = '\x0c'

/-- Python `str.strip()`: drop whitespace from both ends. -/
def stripChars (l : Str) : Str :=
  ((l.dropWhile isPyWs).reverse.dropWhile isPyWs).reverse

/-- Python truthiness of an optional string: `None` and `""` are falsy. -/
def optTruthy : Option Str → Bool
  | none => false
  | some s => !s.isEmpty

/-- Python `a or b` on two optional strings. -/
def pyOrOpt (a b : Option Str) : Option Str :=
  if optTruthy a then a else b

/-- Python `a or b` on two strings. -/
def pyStrOr (a b : Str) : Str :=
  if a = [] then b else a

/-- Python `needle in hay` substring test. -/
def infixB (needle : Str) : Str → Bool
  | [] => needle.isEmpty
  | c :: cs => needle.isPrefixOf (c :: cs) || infixB needle cs

/-- Python `sep.join(parts)`. -/
def joinSep (sep : Str) : List Str → Str
  | [] => []
  | [x] => x
  | x :: xs => x ++ sep ++ joinSep sep xs

/-- Decimal rendering of a natural number (the `{n}` of an f-string). -/
def natToStr (n : Nat) : Str := Nat.toDigits 10 n

/-- Auxiliary scanner for `re.sub(r'\s+', ' ', text)`: `prevWs` records
whether we are inside a whitespace run whose first character was already
replaced by a single space. -/
def squashWsAux : Bool → Str → Str
  | _, [] => []
  | prevWs, c :: cs =>
    if isPyWs c then
      if prevWs then squashWsAux true cs
      else ' ' :: squashWsAux true cs
    else c :: squashWsAux false cs

/-- `re.sub(r'\s+', ' ', text)`: collapse each whitespace run to one space. -/
def squashWs (l : Str) : Str := squashWsAux false l

/-- The whitespace normalisation performed at the top of
`simple_extractive_summary`: collapse whitespace runs, then strip. -/
def normWs (l : Str) : Str := stripChars (squashWs l)

/-- A sentence-boundary character of the split regex `(?<=[\.\?\!])\s+`. -/
def isSentEnd (c : Char) : Bool := c = '.' || c = '?' || c = '!'

/-- Whether a string starts with a whitespace character. -/
def headIsWs : Str → Bool
  | [] => false
  | c :: _ => isPyWs c

/-- Scanner for `re.split(r'(?<=[\.\?\!])\s+', text)`.  The flag records
whether we are consuming the (greedy) whitespace run of a boundary match:
a boundary opens after a `.`/`?`/`!` that is immediately followed by
whitespace, and the following whitespace run is consumed. -/
def sentSplitAux : Bool → Str → List Str
  | _, [] => [[]]
  | skipping, c :: cs =>
    if skipping && isPyWs c then sentSplitAux true cs
    else if isSentEnd c && headIsWs cs then [c] :: sentSplitAux true cs
    else
      match sentSplitAux false cs with
      | [] => [[c]]
      | p :: ps => (c :: p) :: ps

/-- `re.split(r'(?<=[\.\?\!])\s+', text)`, the `_SENTENCE_SPLIT_RE` split. -/
def sentSplit (l : Str) : List Str := sentSplitAux false l

/-- A feed entry as consumed from `feedparser`: every attribute the code
reads through `getattr` may be absent.  The two timestamp fields stand for
`published_parsed` / `updated_parsed` tuples that convert successfully to a
`datetime` (a present-but-malformed tuple behaves like an absent one, since
the `datetime(*...)` call raises and falls through). -/
structure Entry where
  link : Option Str
  title : Option Str
  summary : Option Str
  description : Option Str
  published_parsed : Option Nat
  updated_parsed : Option Nat
deriving DecidableEq, Repr

/-- An accepted digest item, the dict appended by `collect_and_summarize`. -/
structure Item where
  title : Str
  url : Str
  summary : Str
  published : Nat
deriving DecidableEq, Repr

/-- The module-level configuration globals read by the filter chain. -/
structure Config where
  allow_domains : List Str
  include_keywords : List Str
  exclude_keywords : List Str
  min_article_length : Nat
deriving DecidableEq, Repr

/-- `DEFAULT_ALLOW_DOMAINS` from the source. -/
def DEFAULT_ALLOW_DOMAINS : List Str :=
  [ "timesofindia.indiatimes.com".data
  , "thehindu.com".data
  , "hindustantimes.com".data
  , "indianexpress.com".data
  , "ndtv.com".data
  , "indiatoday.in".data
  , "economictimes.indiatimes.com".data
  , "news18.com".data ]

/-- A scheme character accepted by `urllib.parse` when splitting off the
scheme: letters, digits, `+`, `-`, `.`. -/
def schemeChar (c : Char) : Bool :=
  c.isAlphanum || c = '+' || c = '-' || c = '.'

/-- Split a string at its first `':'`, returning the parts before and after
it (the colon itself dropped), or `none` when there is no colon. -/
def splitAtColon : Str → Option (Str × Str)
  | [] => none
  | ':' :: rest => some ([], rest)
  | c :: rest =>
    match splitAtColon rest with
    | none => none
    | some (a, b) => some (c :: a, b)

/-- Drop a leading `scheme:` from a URL string, as `urllib.parse.urlsplit`
does when the text before the first colon is a well-formed scheme. -/
def stripScheme (s : Str) : Str :=
  match splitAtColon s with
  | none => s
  | some (pre, rest) =>
    if pre ≠ [] && pre.all schemeChar &&
        (match pre with | c :: _ => c.isAlpha | [] => false) then rest
    else s

/-- `urlparse(url).netloc` for the HTTP-style URLs this pipeline handles:
after removing the scheme, the host part is present exactly when the
remainder starts with `//`, and extends to the next `/`, `?` or `#`. -/
def netloc (s : Str) : Str :=
  match stripScheme s with
  | '/' :: '/' :: rest => rest.takeWhile (fun c => !(c = '/' || c = '?' || c = '#'))
  | _ => []

/-- Python `host.replace("www.", "")`: remove every (left-to-right,
non-overlapping) occurrence of `"www."`. -/
def stripWWWAll : Str → Str
  | [] => []
  | 'w' :: 'w' :: 'w' :: '.' :: rest => stripWWWAll rest
  | c :: cs => c :: stripWWWAll cs

/-- `domain_of`: `urlparse(url).netloc.lower().replace("www.", "")`. -/
def domain_of (url : Str) : Str :=
  stripWWWAll ((netloc url).map Char.toLower)

/-- The Domain Matcher verdict as the code computes it inside
`passes_filters`: some allow-list entry is a substring of `domain_of url`. -/
def domainAllowed (allow : List Str) (url : Str) : Bool :=
  allow.any (fun a => infixB a (domain_of url))

/-- The host as described by the original specification's words for the
Domain Matcher: extract the host, strip one *leading* `"www."` prefix,
lowercase it.  Used to compare the spec's algorithm with the code's. -/
def domain_of_spec_claimed (url : Str) : Str :=
  (if "www.".data.isPrefixOf (netloc url) then (netloc url).drop 4 else netloc url).map
    Char.toLower

/-- The Domain Matcher verdict under the original specification's wording. -/
def domainAllowedSpecClaimed (allow : List Str) (url : Str) : Bool :=
  allow.any (fun a => infixB a (domain_of_spec_claimed url))

/-- A JSON value, the parse result of the persisted `sent.json` file. -/
inductive Json where
  | null : Json
  | bool (b : Bool) : Json
  | num (n : Int) : Json
  | str (s : Str) : Json
  | arr (l : List Json) : Json
  | obj (l : List (Str × Json)) : Json

/-- Lexicographic (code-point) comparison of strings, Python's `<=` used by
`sorted`. -/
def lexLe : Str → Str → Bool
  | [], _ => true
  | _ :: _, [] => false
  | a :: as, b :: bs =>
    if a.toNat < b.toNat then true
    else if a.toNat = b.toNat then lexLe as bs
    else false

/-- Insert into a lexicographically sorted list of strings. -/
def insertLex (s : Str) : List Str → List Str
  | [] => [s]
  | t :: ts => if lexLe s t then s :: t :: ts else t :: insertLex s ts

/-- Python `sorted` on a list of strings. -/
def sortStrings : List Str → List Str
  | [] => []
  | s :: ss => insertLex s (sortStrings ss)

/-- `save_sent_set` with persistence enabled and the write succeeding: the
JSON value written to the file, `json.dump(sorted(sent), ...)`.  The
`DedupSet` is represented as a `List Str` with set semantics (`dedup`
models the uniqueness of Python set elements). -/
def save_sent_set (sent : List Str) : Json :=
  .arr ((sortStrings sent.dedup).map .str)

/-- `load_sent_set`.  The argument models the persisted file: `none` = file
absent, `some none` = contents do not parse as JSON, `some (some j)` =
contents parse to `j`.  Non-list JSON gives the empty set (the
`isinstance(data, list)` guard); the string members of a parsed list form
the resulting set (non-string members of a hand-edited file can never
compare equal to a URL string, so they are dropped by the model). -/
def load_sent_set (persist : Bool) (file : Option (Option Json)) : List Str :=
  if !persist then []
  else
    match file with
    | none => []
    | some none => []
    | some (some (.arr l)) =>
      l.filterMap (fun j => match j with | .str s => some s | _ => none)
    | some (some _) => []

/-- `simple_extractive_summary`: normalise whitespace, split into sentences,
keep the first `max_sentences`; the first kept sentence is the headline and
the bullet pool is the rest — except that, as written, a pool of length one
is reused whole as the bullet list (`chosen[:max_sentences]`). -/
def simple_extractive_summary (text : Str) (max_sentences : Nat) : Str :=
  let text := normWs text
  if text = [] then []
  else
    let sentences := sentSplit text
    let chosen := sentences.take max_sentences
    let headline :=
      match chosen with
      | [] => text.take 100 ++ "...".data
      | h :: _ => h
    let bullets := if chosen.length > 1 then chosen.drop 1 else chosen.take max_sentences
    let bullets_txt :=
      if bullets = [] then []
      else joinSep "\n".data (bullets.map (fun b => "- ".data ++ stripChars b))
    stripChars headline ++ '\n' :: bullets_txt

/-- Outcome of the external generative call inside `summarize`'s `try`
block: either some exception was raised (configuration, auth, quota,
network, …), or a response object came back, carrying an optional `text`
attribute and its `str(...)` rendering. -/
inductive GemOutcome where
  | raised (msg : Str) : GemOutcome
  | resp (textAttr : Option Str) (strRepr : Str) : GemOutcome

/-- The prompt string `summarize` builds for the generative model. -/
def geminiPrompt (title text : Str) : Str :=
  "You are a concise, factual summarizer. Output:\n".data ++
  "- One short headline (one line)\n".data ++
  "- Three clear bullet points (each 1 sentence)\n\n".data ++
  "Article Title: ".data ++ title ++ "\n\nArticle Text:\n".data ++ text ++
  "\n\nSummary:".data

/-- `summarize`: use the generative path when an API key is set and the
client library imported; any raised exception there falls back to
`simple_extractive_summary` on the same text. -/
def summarize (apiKey : Str) (geminiAvailable : Bool) (gem : Str → GemOutcome)
    (title text : Str) : Str :=
  if apiKey ≠ [] && geminiAvailable then
    match gem (geminiPrompt title text) with
    | .raised _ => simple_extractive_summary text 3
    | .resp (some t) srepr => if t ≠ [] then stripChars t else srepr
    | .resp none srepr => srepr
  else simple_extractive_summary text 3

/-- Outcome of the HTTP GET + HTML parse inside `fetch_page`'s `try` block:
a `requests` exception (timeouts, connection errors, and non-2xx responses
surfaced by `raise_for_status`), any other exception while parsing, or a
parsed page.  For a parsed page, `article` holds the `<p>` texts inside an
`<article>` tag when one is found, and `paras` all `<p>` texts of the
document. -/
inductive HttpResult where
  | exn (msg : Str) : HttpResult
  | parseExn (msg : Str) : HttpResult
  | page (article : Option (List Str)) (paras : List Str) : HttpResult

/-- The paragraph concatenation of `fetch_page`: join the stripped,
non-empty paragraph texts with single spaces, preferring the `<article>`
paragraphs when that tag exists. -/
def pageText (article : Option (List Str)) (paras : List Str) : Str :=
  joinSep " ".data (((article.getD paras).map stripChars).filter (fun t => t ≠ []))

/-- `fetch_page`: returns `(extracted_text_or_None, error_message_or_None)`.
Empty or too-short page text is the non-error `(None, None)` outcome;
caught exceptions carry a tagged reason; success truncates to 6000
characters. -/
def fetch_page (minLen : Nat) (http : Str → HttpResult) (url : Str) :
    Option Str × Option Str :=
  match http url with
  | .exn m => (none, some ("fetch_error: ".data ++ m))
  | .parseExn m => (none, some ("extract_error: ".data ++ m))
  | .page article paras =>
    let text := pageText article paras
    if text = [] || text.length < minLen then (none, none)
    else (some (text.take 6000), none)

/-- `passes_filters`: the filter chain on one candidate.  Checks run in the
fixed order domain allowlist → exclude keywords → include keywords →
minimum effective length, the first failure returning its reason code. -/
def passes_filters (cfg : Config) (e : Entry) (extracted_text : Option Str) :
    Bool × Str :=
  let url := e.link.getD []
  let title := (e.title.getD []).map Char.toLower
  let summary := (pyStrOr (e.summary.getD []) (e.description.getD [])).map Char.toLower
  let dom := domain_of url
  if cfg.allow_domains ≠ [] && !(cfg.allow_domains.any (fun a => infixB a dom)) then
    (false, "domain_not_allowed:".data ++ dom)
  else
    let combined := title ++ ' ' :: summary
    match cfg.exclude_keywords.find? (fun kw => kw ≠ [] && infixB kw combined) with
    | some kw => (false, "exclude_keyword:".data ++ kw)
    | none =>
      if cfg.include_keywords ≠ [] &&
          !(cfg.include_keywords.any (fun kw => infixB kw combined)) then
        (false, "include_keywords_not_matched".data)
      else
        let effective_len :=
          if optTruthy extracted_text then (extracted_text.getD []).length
          else summary.length
        if effective_len < cfg.min_article_length then
          (false, "too_short(len=".data ++ natToStr effective_len ++ ")".data)
        else (true, "ok".data)

/-- `url = getattr(entry, "link", "") or ""`. -/
def pyUrl (e : Entry) : Str := e.link.getD []

/-- `title = getattr(entry, "title", url or "Untitled")`. -/
def resolveTitle (e : Entry) : Str :=
  e.title.getD (if pyUrl e = [] then "Untitled".data else pyUrl e)

/-- The module globals and external-world oracles a collection run reads:
the filter configuration, the summarizer configuration (`GOOGLE_API_KEY`,
`GEMINI_AVAILABLE`, the generative service), and the HTTP/HTML layer. -/
structure Env where
  cfg : Config
  apiKey : Str
  geminiAvailable : Bool
  gem : Str → GemOutcome
  http : Str → HttpResult

/-- The effective text of a candidate: the `fetch_page` extraction when
truthy, else the feed-provided summary/description when truthy, else
nothing (the candidate is skipped). -/
def effText (env : Env) (e : Entry) : Option Str :=
  let ext := (fetch_page env.cfg.min_article_length env.http (pyUrl e)).1
  if optTruthy ext then ext
  else
    let fb := pyOrOpt e.summary e.description
    if optTruthy fb then fb else none

/-- The result of one collection run: the accepted items, in acceptance
order, and the URLs that were passed to `fetch_page`, in order. -/
structure RunResult where
  items : List Item
  fetched : List Str
deriving DecidableEq, Repr

/-- The per-candidate loop of `collect_and_summarize`: stop at the target
count; skip empty or already-sent URLs before any fetch; fetch, fall back
to the feed summary, filter, summarize, append. -/
def collectLoop (env : Env) (maxItems : Nat) (sent : List Str) :
    List (Nat × Entry) → List Item → List Str → RunResult
  | [], acc, log => ⟨acc, log⟩
  | (pub, e) :: rest, acc, log =>
    if acc.length ≥ maxItems then ⟨acc, log⟩
    else if pyUrl e = [] then collectLoop env maxItems sent rest acc log
    else if pyUrl e ∈ sent then collectLoop env maxItems sent rest acc log
    else
      match effText env e with
      | none => collectLoop env maxItems sent rest acc (log ++ [pyUrl e])
      | some x =>
        if (passes_filters env.cfg e (some x)).1 then
          collectLoop env maxItems sent rest
            (acc ++ [⟨resolveTitle e, pyUrl e,
                      summarize env.apiKey env.geminiAvailable env.gem (resolveTitle e) x,
                      pub⟩])
            (log ++ [pyUrl e])
        else collectLoop env maxItems sent rest acc (log ++ [pyUrl e])

/-- Best-effort published timestamp: `published_parsed`, else
`updated_parsed`, else the collection time `now`. -/
def resolvePublished (now : Nat) (e : Entry) : Nat :=
  match e.published_parsed with
  | some t => t
  | none =>
    match e.updated_parsed with
    | some t => t
    | none => now

/-- The candidates one feed contributes: nothing when its parse failed
(`none`), else its first `maxPerFeed` entries paired with their resolved
timestamps, in encounter order. -/
def feedCandidates (maxPerFeed now : Nat) (f : Option (List Entry)) :
    List (Nat × Entry) :=
  match f with
  | none => []
  | some es => (es.take maxPerFeed).map (fun e => (resolvePublished now e, e))

/-- Candidate gathering over all feeds, merging per-feed candidates in feed
order (a failed feed contributes nothing, the run continues). -/
def gatherCandidates (maxPerFeed : Nat) (now : Nat)
    (feeds : List (Option (List Entry))) : List (Nat × Entry) :=
  feeds.foldl (fun acc f => acc ++ feedCandidates maxPerFeed now f) []

/-- Stable insertion used to model Python's stable `sort(key=..., reverse=True)`:
a candidate moves left past exactly the candidates with strictly smaller
timestamps, so equal timestamps keep encounter order. -/
def insertCandDesc (c : Nat × Entry) : List (Nat × Entry) → List (Nat × Entry)
  | [] => [c]
  | d :: ds => if c.1 > d.1 then c :: d :: ds else d :: insertCandDesc c ds

/-- `candidates.sort(key=lambda x: x[0], reverse=True)`: stable,
newest-first. -/
def sortCandsDesc (l : List (Nat × Entry)) : List (Nat × Entry) :=
  l.foldl (fun acc c => insertCandDesc c acc) []

/-- `collect_and_summarize`: gather candidates from every feed, sort
newest-first, and run the per-candidate loop against the given `DedupSet`.
(The `load_sent_set()` call at its head is the `sent` parameter; the claims
instantiate it with loaded state explicitly.) -/
def collect_and_summarize (env : Env) (feeds : List (Option (List Entry)))
    (now maxPerFeed maxItems : Nat) (sent : List Str) : RunResult :=
  collectLoop env maxItems sent
    (sortCandsDesc (gatherCandidates maxPerFeed now feeds)) [] []

/-- The `DedupSet` update `main` performs after a successful non-dry-run
send: add every accepted URL. -/
def sentAfterRun (sent : List Str) (items : List Item) : List Str :=
  sent ++ items.map (fun it => it.url)

/-- The `DedupSet` a later run loads when persistence is enabled, delivery
succeeded and the file round-tripped through `save_sent_set`. -/
def persistedSent (sent : List Str) (items : List Item) : List Str :=
  load_sent_set true (some (some (save_sent_set (sentAfterRun sent items))))

/-- The lowercased feed summary computed inside `passes_filters`. -/
def filterSummary (e : Entry) : Str :=
  (pyStrOr (e.summary.getD []) (e.description.getD [])).map Char.toLower

/-- The lowercased `f"{title} {summary}"` keyword-scan text of
`passes_filters`. -/
def filterCombined (e : Entry) : Str :=
  (e.title.getD []).map Char.toLower ++ ' ' :: filterSummary e

/-- The effective length measured by the filter chain's length check:
the extracted text's length when the extracted text is truthy, else the
feed summary's length. -/
def effectiveLen (e : Entry) (extracted_text : Option Str) : Nat :=
  if optTruthy extracted_text then (extracted_text.getD []).length
  else (filterSummary e).length

/-- The domain check of the filter chain does not reject: the allow-set is
empty (the code skips the check) or some entry matches. -/
def domainCheckPasses (cfg : Config) (e : Entry) : Prop :=
  cfg.allow_domains = [] ∨
    cfg.allow_domains.any (fun a => infixB a (domain_of (pyUrl e))) = true

/-- A candidate the per-candidate loop accepts (when the target count has
not been reached): non-empty URL, not already sent, some effective text,
and the filter chain passes. -/
def acceptsCand (env : Env) (sent : List Str) (e : Entry) : Prop :=
  pyUrl e ≠ [] ∧ pyUrl e ∉ sent ∧
  ∃ x, effText env e = some x ∧ (passes_filters env.cfg e (some x)).1 = true

/-- A string usable as a URL host: no path/query/fragment delimiters. -/
def isHostStr (h : Str) : Prop := ∀ c ∈ h, c ≠ '/' ∧ c ≠ '?' ∧ c ≠ '#'

/-- Build `http://<host>/<path>`. -/
def mkHttpUrl (host path : Str) : Str :=
  "http://".data ++ host ++ '/' :: path

/-- Split a string into its lines at `'\n'` (Python `str.splitlines` for
newline-only text). -/
def splitOnNl : Str → List Str
  | [] => [[]]
  | c :: cs =>
    if c = '\n' then [] :: splitOnNl cs
    else
      match splitOnNl cs with
      | [] => [[c]]
      | p :: ps => (c :: p) :: ps

/-- Concrete environment for the collector claims: one allowed domain, no
keyword filters, minimum length 0, no generative summarizer, and an HTTP
layer that always yields one paragraph. -/
def c1Env : Env :=
  ⟨⟨["thehindu.com".data], [], [], 0⟩, [], false,
   fun _ => .raised [],
   fun _ => .page none ["News content here.".data]⟩

/-- Concrete feed entry `a` for the C1 counterexample and witness. -/
def c1EntryA : Entry :=
  ⟨some "http://thehindu.com/a".data, some "A".data, none, none, some 10, none⟩

/-- Concrete feed entry `b` for the C1 counterexample and witness. -/
def c1EntryB : Entry :=
  ⟨some "http://thehindu.com/b".data, some "B".data, none, none, some 5, none⟩

/-- Concrete environment for the C6 witness (same shape as `c1Env`). -/
def c6Env : Env :=
  ⟨⟨["thehindu.com".data], [], [], 0⟩, [], false,
   fun _ => .raised [],
   fun _ => .page none ["News content here.".data]⟩

/-- Concrete feed entry for the C6 witness. -/
def c6E : Entry :=
  ⟨some "http://thehindu.com/a".data, some "A".data, none, none, some 10, none⟩

/-- The digest item the C6 witness run produces. -/
def c6Item : Item :=
  ⟨"A".data, "http://thehindu.com/a".data,
   simple_extractive_summary "News content here.".data 3, 10⟩

/-- Concrete environment for the C10 theorem (same shape as `c1Env`). -/
def c10Env : Env :=
  ⟨⟨["thehindu.com".data], [], [], 0⟩, [], false,
   fun _ => .raised [],
   fun _ => .page none ["News content here.".data]⟩

/-- First feed's entry for the C10 theorem. -/
def c10E1 : Entry :=
  ⟨some "http://thehindu.com/a".data, some "A".data, none, none, some 10, none⟩

/-- Second feed's entry for the C10 theorem: the same URL, carried by a
second feed. -/
def c10E2 : Entry :=
  ⟨some "http://thehindu.com/a".data, some "B".data, none, none, some 5, none⟩

/-- Entry with a disallowed domain and a short summary, for the C5
counterexample. -/
def c5Entry : Entry :=
  ⟨some "http://evil.com/x".data, some "T".data, some "hi".data, none, none, none⟩

/-- Entry matching the spec's exclude-keyword scenario, for the C4
witness. -/
def c4Entry : Entry :=
  ⟨some "http://thehindu.com/x".data, some "Budget announced".data,
   some "hi".data, none, none, none⟩

/-! ## Helper lemmas -/

/-- The sentence splitter, like `re.split`, always returns at least one
part. -/
theorem sentSplitAux_ne_nil : ∀ (b : Bool) (l : Str), sentSplitAux b l ≠ [] := by
  intro b l
  induction l generalizing b with
  | nil => simp [sentSplitAux]
  | cons c cs ih =>
    simp only [sentSplitAux]
    split
    · exact ih true
    · split
      · simp
      · split
        · simp
        · simp

/-- C2 (counterexample): on the single-sentence input `"Hello world."` the
fallback summarizer does not return the sentence as a bullet-free headline:
it repeats the sentence as one dash-prefixed bullet line. -/
theorem C2_counterexample :
    simple_extractive_summary "Hello world.".data 3
      = "Hello world.\n- Hello world.".data ∧
    (splitOnNl (simple_extractive_summary "Hello world.".data 3)).drop 1
      = ["- Hello world.".data] ∧
    simple_extractive_summary "Hello world.".data 3
      ≠ "Hello world.".data ++ ['\n'] := by
  refine ⟨by decide, by decide, by decide⟩

/-- C2 (amended): the fallback summarizer returns the empty string on empty
input; on a one-sentence input it returns the sentence as headline plus one
dash-prefixed bullet repeating the same sentence; on a five-sentence input
with `max_sentences = 3` it returns the first sentence as headline and
exactly the second and third as dash-prefixed bullets; and sentence
splitting never yields zero sentences, so the synthesized truncated
headline branch is unreachable. -/
theorem C2_fallback_summarizer :
    simple_extractive_summary [] 3 = [] ∧
    (∀ text s, normWs text ≠ [] → sentSplit (normWs text) = [s] →
      simple_extractive_summary text 3
        = stripChars s ++ '\n' :: ("- ".data ++ stripChars s)) ∧
    (∀ text s1 s2 s3 s4 s5, normWs text ≠ [] →
      sentSplit (normWs text) = [s1, s2, s3, s4, s5] →
      simple_extractive_summary text 3
        = stripChars s1 ++ '\n' ::
            (("- ".data ++ stripChars s2) ++ '\n' :: ("- ".data ++ stripChars s3))) ∧
    (∀ l, sentSplit l ≠ []) := by
  refine ⟨by decide, ?_, ?_, fun l => sentSplitAux_ne_nil false l⟩
  · intro text s h1 h2
    simp only [simple_extractive_summary, h2, if_neg h1]
    simp [joinSep]
  · intro text s1 s2 s3 s4 s5 h1 h2
    simp only [simple_extractive_summary, h2, if_neg h1]
    simp [joinSep]

/-- C2 (witness): the five-sentence case at a concrete input. -/
theorem C2_fallback_summarizer_witness :
    simple_extractive_summary "One. Two. Three? Four! Five.".data 3
      = "One.\n- Two.\n- Three?".data := by
  have h := C2_fallback_summarizer.2.2.1 "One. Two. Three? Four! Five.".data
    "One.".data "Two.".data "Three?".data "Four!".data "Five.".data
    (by decide) (by decide)
  rw [h]
  decide

/-- `splitAtColon` on an `http://` URL splits at the scheme colon. -/
theorem splitAtColon_http (l : Str) :
    splitAtColon ("http://".data ++ l) = some ("http".data, "//".data ++ l) := rfl

/-- `stripScheme` removes the `http:` scheme. -/
theorem stripScheme_http (l : Str) :
    stripScheme ("http://".data ++ l) = "//".data ++ l := rfl

/-- `takeWhile` over a host followed by a slash recovers the host. -/
theorem takeWhile_host (host path : Str) (hh : isHostStr host) :
    (host ++ '/' :: path).takeWhile (fun c => !(c = '/' || c = '?' || c = '#'))
      = host := by
  induction host with
  | nil => rfl
  | cons c cs ih =>
    have hc := hh c (by simp)
    have hrest : isHostStr cs := fun d hd => hh d (by simp [hd])
    simp [List.takeWhile_cons, hc.1, hc.2.1, hc.2.2]
    simpa using ih hrest

/-- The host of a well-formed `http://host/path` URL. -/
theorem netloc_mkHttpUrl (host path : Str) (hh : isHostStr host) :
    netloc (mkHttpUrl host path) = host := by
  have h1 : stripScheme (mkHttpUrl host path) = "//".data ++ (host ++ '/' :: path) := by
    simpa [mkHttpUrl] using stripScheme_http (host ++ '/' :: path)
  simp only [netloc, h1]
  exact takeWhile_host host path hh

/-- `domain_of` on a well-formed URL lowercases the host and removes every
occurrence of `"www."`. -/
theorem domain_of_mkHttpUrl (host path : Str) (hh : isHostStr host) :
    domain_of (mkHttpUrl host path) = stripWWWAll (host.map Char.toLower) := by
  simp [domain_of, netloc_mkHttpUrl host path hh]

/-- A `"www."`-prefixed host is still a host string. -/
theorem isHostStr_www {host : Str} (hh : isHostStr host) :
    isHostStr ("www.".data ++ host) := by
  intro c hc
  rcases List.mem_append.1 hc with h | h
  · fin_cases h <;> exact ⟨by decide, by decide, by decide⟩
  · exact hh c h

/-- C3 (counterexample): with the default allow-set, the code's verdict
(remove every `"www."` occurrence) and the specified verdict (strip one
leading `"www."` prefix) disagree on `http://thehindu.cowww.m/x`: removing
the interior `"www."` manufactures the substring `thehindu.com`, so the
code allows a URL the specified algorithm rejects. -/
theorem C3_counterexample :
    domainAllowedSpecClaimed DEFAULT_ALLOW_DOMAINS "http://thehindu.cowww.m/x".data
        = false ∧
    domainAllowed DEFAULT_ALLOW_DOMAINS "http://thehindu.cowww.m/x".data = true := by
  refine ⟨by decide, by decide⟩

/-- C3 (amended): the Domain Matcher verdict is computed by extracting the
URL's host, lowercasing it, removing every occurrence of `"www."`, and
testing whether any allow-set entry is a substring; consequently the
verdict is unchanged by adding a leading `"www."` to the host or by
changing the letter case of the host. -/
theorem C3_domain_matcher :
    (∀ allow url, domainAllowed allow url
        = allow.any (fun a => infixB a (stripWWWAll ((netloc url).map Char.toLower)))) ∧
    (∀ allow host path, isHostStr host →
        domainAllowed allow (mkHttpUrl ("www.".data ++ host) path)
          = domainAllowed allow (mkHttpUrl host path)) ∧
    (∀ allow host1 host2 path1 path2, isHostStr host1 → isHostStr host2 →
        host1.map Char.toLower = host2.map Char.toLower →
        domainAllowed allow (mkHttpUrl host1 path1)
          = domainAllowed allow (mkHttpUrl host2 path2)) := by
  refine ⟨fun allow url => rfl, ?_, ?_⟩
  · intro allow host path hh
    have h1 : domain_of (mkHttpUrl ("www.".data ++ host) path)
        = domain_of (mkHttpUrl host path) := by
      rw [domain_of_mkHttpUrl _ path (isHostStr_www hh), domain_of_mkHttpUrl _ path hh]
      rw [List.map_append]
      have h2 : ("www.".data).map Char.toLower = "www.".data := by decide
      rw [h2]
      rfl
    simp only [domainAllowed]
    rw [h1]
  · intro allow host1 host2 path1 path2 h1 h2 hlow
    have hd : domain_of (mkHttpUrl host1 path1) = domain_of (mkHttpUrl host2 path2) := by
      rw [domain_of_mkHttpUrl _ _ h1, domain_of_mkHttpUrl _ _ h2, hlow]
    simp only [domainAllowed]
    rw [hd]

/-- C3 (witness): `www.`-insensitivity at the spec's example host. -/
theorem C3_domain_matcher_witness :
    domainAllowed DEFAULT_ALLOW_DOMAINS
        (mkHttpUrl ("www.".data ++ "thehindu.com".data) "x".data)
      = domainAllowed DEFAULT_ALLOW_DOMAINS (mkHttpUrl "thehindu.com".data "x".data) :=
  C3_domain_matcher.2.1 DEFAULT_ALLOW_DOMAINS "thehindu.com".data "x".data
    (by unfold isHostStr; decide)

/-- The domain-rejection condition of `passes_filters` is false whenever the
domain check passes. -/
theorem domainCond_false {cfg : Config} {e : Entry} (hdom : domainCheckPasses cfg e) :
    (cfg.allow_domains ≠ [] &&
      !(cfg.allow_domains.any (fun a => infixB a (domain_of (e.link.getD []))))) = false := by
  rcases hdom with h | h
  · simp [h]
  · have h2 : (cfg.allow_domains.any (fun a => infixB a (domain_of (e.link.getD [])))) = true := h
    simp [h2]

/-- Filter chain, case 1: a failing domain check rejects immediately,
whatever the keyword lists or length say. -/
theorem passes_filters_domain_fail (cfg : Config) (e : Entry) (ext : Option Str)
    (h1 : cfg.allow_domains ≠ [])
    (h2 : cfg.allow_domains.any (fun a => infixB a (domain_of (pyUrl e))) = false) :
    passes_filters cfg e ext
      = (false, "domain_not_allowed:".data ++ domain_of (pyUrl e)) := by
  have h3 : (cfg.allow_domains.any (fun a => infixB a (domain_of (e.link.getD [])))) = false := h2
  simp only [passes_filters, pyUrl]
  rw [h3]
  simp [h1]

/-- Filter chain, case 2: with the domain check passing, the first matching
exclude keyword rejects, whatever the include keywords or length say. -/
theorem passes_filters_exclude_fail (cfg : Config) (e : Entry) (ext : Option Str)
    (kw : Str) (hdom : domainCheckPasses cfg e)
    (hkw : cfg.exclude_keywords.find? (fun k => k ≠ [] && infixB k (filterCombined e))
        = some kw) :
    passes_filters cfg e ext = (false, "exclude_keyword:".data ++ kw) := by
  have hkw2 : cfg.exclude_keywords.find?
      (fun kw => kw ≠ [] && infixB kw ((e.title.getD []).map Char.toLower ++
        ' ' :: (pyStrOr (e.summary.getD []) (e.description.getD [])).map Char.toLower))
      = some kw := by
    simpa only [filterCombined, filterSummary] using hkw
  simp only [passes_filters, pyUrl]
  rw [domainCond_false hdom, hkw2]
  simp

/-- Filter chain, case 3: domain and exclude checks passing, a non-empty
include list with no match rejects. -/
theorem passes_filters_include_fail (cfg : Config) (e : Entry) (ext : Option Str)
    (hdom : domainCheckPasses cfg e)
    (hexc : cfg.exclude_keywords.find? (fun k => k ≠ [] && infixB k (filterCombined e))
        = none)
    (h1 : cfg.include_keywords ≠ [])
    (h2 : cfg.include_keywords.any (fun k => infixB k (filterCombined e)) = false) :
    passes_filters cfg e ext = (false, "include_keywords_not_matched".data) := by
  have hexc2 : cfg.exclude_keywords.find?
      (fun kw => kw ≠ [] && infixB kw ((e.title.getD []).map Char.toLower ++
        ' ' :: (pyStrOr (e.summary.getD []) (e.description.getD [])).map Char.toLower))
      = none := by
    simpa only [filterCombined, filterSummary] using hexc
  have h3 : (cfg.include_keywords.any (fun kw => infixB kw ((e.title.getD []).map Char.toLower ++
      ' ' :: (pyStrOr (e.summary.getD []) (e.description.getD [])).map Char.toLower))) = false := by
    simpa only [filterCombined, filterSummary] using h2
  simp only [passes_filters, pyUrl]
  rw [domainCond_false hdom, hexc2, h3]
  simp [h1]

/-- The include-rejection condition of `passes_filters` is false whenever
the include check passes. -/
theorem includeCond_false {cfg : Config} {e : Entry}
    (hinc : cfg.include_keywords = [] ∨
      cfg.include_keywords.any (fun k => infixB k (filterCombined e)) = true) :
    (cfg.include_keywords ≠ [] &&
      !(cfg.include_keywords.any (fun kw => infixB kw ((e.title.getD []).map Char.toLower ++
        ' ' :: (pyStrOr (e.summary.getD []) (e.description.getD [])).map Char.toLower)))) = false := by
  rcases hinc with h | h
  · simp [h]
  · have h2 : (cfg.include_keywords.any (fun kw => infixB kw ((e.title.getD []).map Char.toLower ++
        ' ' :: (pyStrOr (e.summary.getD []) (e.description.getD [])).map Char.toLower))) = true := by
      simpa only [filterCombined, filterSummary] using h
    simp [h2]

/-- Filter chain, case 4: all earlier checks passing, an effective length
below the minimum rejects with the measured length. -/
theorem passes_filters_too_short (cfg : Config) (e : Entry) (ext : Option Str)
    (hdom : domainCheckPasses cfg e)
    (hexc : cfg.exclude_keywords.find? (fun k => k ≠ [] && infixB k (filterCombined e))
        = none)
    (hinc : cfg.include_keywords = [] ∨
        cfg.include_keywords.any (fun k => infixB k (filterCombined e)) = true)
    (hlen : effectiveLen e ext < cfg.min_article_length) :
    passes_filters cfg e ext
      = (false, "too_short(len=".data ++ natToStr (effectiveLen e ext) ++ ")".data) := by
  have hexc2 : cfg.exclude_keywords.find?
      (fun kw => kw ≠ [] && infixB kw ((e.title.getD []).map Char.toLower ++
        ' ' :: (pyStrOr (e.summary.getD []) (e.description.getD [])).map Char.toLower))
      = none := by
    simpa only [filterCombined, filterSummary] using hexc
  have hlen2 : (if optTruthy ext then (ext.getD []).length
      else ((pyStrOr (e.summary.getD []) (e.description.getD [])).map Char.toLower).length)
      < cfg.min_article_length := by
    simpa only [effectiveLen, filterSummary] using hlen
  simp only [passes_filters, pyUrl]
  rw [domainCond_false hdom, hexc2, includeCond_false hinc]
  simp only [effectiveLen, filterSummary]
  simp [hlen2]
  simpa using hlen2

/-- Filter chain, case 5: every check passing yields `(True, "ok")`. -/
theorem passes_filters_ok (cfg : Config) (e : Entry) (ext : Option Str)
    (hdom : domainCheckPasses cfg e)
    (hexc : cfg.exclude_keywords.find? (fun k => k ≠ [] && infixB k (filterCombined e))
        = none)
    (hinc : cfg.include_keywords = [] ∨
        cfg.include_keywords.any (fun k => infixB k (filterCombined e)) = true)
    (hlen : ¬ effectiveLen e ext < cfg.min_article_length) :
    passes_filters cfg e ext = (true, "ok".data) := by
  have hexc2 : cfg.exclude_keywords.find?
      (fun kw => kw ≠ [] && infixB kw ((e.title.getD []).map Char.toLower ++
        ' ' :: (pyStrOr (e.summary.getD []) (e.description.getD [])).map Char.toLower))
      = none := by
    simpa only [filterCombined, filterSummary] using hexc
  have hlen2 : ¬ (if optTruthy ext then (ext.getD []).length
      else ((pyStrOr (e.summary.getD []) (e.description.getD [])).map Char.toLower).length)
      < cfg.min_article_length := by
    simpa only [effectiveLen, filterSummary] using hlen
  simp only [passes_filters, pyUrl]
  rw [domainCond_false hdom, hexc2, includeCond_false hinc]
  simp [hlen2]
  exact Nat.le_of_not_lt (by simpa using hlen2)

/-- C4: the Filter Chain evaluates domain allowlist, exclude keywords,
include keywords, and minimum effective length in that fixed order; the
first failing check short-circuits with its reason code
(`domain_not_allowed:<host>`, `exclude_keyword:<kw>`,
`include_keywords_not_matched`, `too_short(len=<n>)`).  A disallowed domain
decides the result whatever the keyword or length configuration, and a
matching exclude keyword decides it whatever the include keywords match. -/
theorem C4_filter_chain (cfg : Config) (e : Entry) (ext : Option Str) :
    (cfg.allow_domains ≠ [] →
      cfg.allow_domains.any (fun a => infixB a (domain_of (pyUrl e))) = false →
      passes_filters cfg e ext
        = (false, "domain_not_allowed:".data ++ domain_of (pyUrl e))) ∧
    (∀ kw, domainCheckPasses cfg e →
      cfg.exclude_keywords.find? (fun k => k ≠ [] && infixB k (filterCombined e))
          = some kw →
      passes_filters cfg e ext = (false, "exclude_keyword:".data ++ kw)) ∧
    (domainCheckPasses cfg e →
      cfg.exclude_keywords.find? (fun k => k ≠ [] && infixB k (filterCombined e))
          = none →
      cfg.include_keywords ≠ [] →
      cfg.include_keywords.any (fun k => infixB k (filterCombined e)) = false →
      passes_filters cfg e ext = (false, "include_keywords_not_matched".data)) ∧
    (domainCheckPasses cfg e →
      cfg.exclude_keywords.find? (fun k => k ≠ [] && infixB k (filterCombined e))
          = none →
      (cfg.include_keywords = [] ∨
        cfg.include_keywords.any (fun k => infixB k (filterCombined e)) = true) →
      effectiveLen e ext < cfg.min_article_length →
      passes_filters cfg e ext
        = (false, "too_short(len=".data ++ natToStr (effectiveLen e ext) ++ ")".data)) ∧
    (domainCheckPasses cfg e →
      cfg.exclude_keywords.find? (fun k => k ≠ [] && infixB k (filterCombined e))
          = none →
      (cfg.include_keywords = [] ∨
        cfg.include_keywords.any (fun k => infixB k (filterCombined e)) = true) →
      ¬ effectiveLen e ext < cfg.min_article_length →
      passes_filters cfg e ext = (true, "ok".data)) :=
  ⟨fun h1 h2 => passes_filters_domain_fail cfg e ext h1 h2,
   fun kw hdom hkw => passes_filters_exclude_fail cfg e ext kw hdom hkw,
   fun hdom hexc h1 h2 => passes_filters_include_fail cfg e ext hdom hexc h1 h2,
   fun hdom hexc hinc hlen => passes_filters_too_short cfg e ext hdom hexc hinc hlen,
   fun hdom hexc hinc hlen => passes_filters_ok cfg e ext hdom hexc hinc hlen⟩

/-- C4 (witness): the exclude-beats-include scenario — "budget" configured
as both an exclude and an include keyword still rejects with the exclude
reason. -/
theorem C4_filter_chain_witness :
    passes_filters ⟨DEFAULT_ALLOW_DOMAINS, ["budget".data], ["budget".data], 150⟩
        c4Entry none
      = (false, "exclude_keyword:".data ++ "budget".data) :=
  (C4_filter_chain ⟨DEFAULT_ALLOW_DOMAINS, ["budget".data], ["budget".data], 150⟩
      c4Entry none).2.1
    "budget".data (Or.inr (by decide)) (by decide)

/-- C5 (counterexample): a candidate whose effective text is under the
minimum length but whose domain is not allowed is rejected with the domain
reason, not a `too_short` reason. -/
theorem C5_counterexample :
    effectiveLen c5Entry none < 150 ∧
    passes_filters ⟨DEFAULT_ALLOW_DOMAINS, [], [], 150⟩ c5Entry none
      = (false, "domain_not_allowed:".data ++ "evil.com".data) ∧
    List.take 10 (passes_filters ⟨DEFAULT_ALLOW_DOMAINS, [], [], 150⟩ c5Entry none).2
      ≠ "too_short(".data := by
  refine ⟨by decide, by decide, by decide⟩

/-- C5 (amended): for every candidate that passes the domain,
exclude-keyword and include-keyword checks and whose effective length —
the extracted text's length when the extracted text is present and
non-empty, otherwise the feed summary's length — is under the minimum,
the Filter Chain rejects with `too_short(len=<n>)` carrying the measured
length. -/
theorem C5_too_short_rejection (cfg : Config) (e : Entry) (ext : Option Str)
    (hdom : domainCheckPasses cfg e)
    (hexc : cfg.exclude_keywords.find? (fun k => k ≠ [] && infixB k (filterCombined e))
        = none)
    (hinc : cfg.include_keywords = [] ∨
        cfg.include_keywords.any (fun k => infixB k (filterCombined e)) = true)
    (hlen : effectiveLen e ext < cfg.min_article_length) :
    passes_filters cfg e ext
      = (false, "too_short(len=".data ++ natToStr (effectiveLen e ext) ++ ")".data) :=
  passes_filters_too_short cfg e ext hdom hexc hinc hlen

/-- C5 (witness): an allowed-domain candidate with a 2-character summary is
rejected as `too_short(len=2)`. -/
theorem C5_too_short_rejection_witness :
    passes_filters ⟨DEFAULT_ALLOW_DOMAINS, [], [], 150⟩ c4Entry none
      = (false, "too_short(len=".data ++ natToStr (effectiveLen c4Entry none) ++ ")".data) :=
  C5_too_short_rejection ⟨DEFAULT_ALLOW_DOMAINS, [], [], 150⟩ c4Entry none
    (Or.inr (by decide)) (by decide) (Or.inl rfl) (by decide)

/-- C7: `fetch_page` maps every oracle outcome to a value, never an
exception: request exceptions give `(None, "fetch_error: …")`, parse
exceptions give `(None, "extract_error: …")`, an empty or too-short page
text gives the non-error `(None, None)`, and success returns the text
truncated to 6000 characters, so any returned text has length at most
6000. -/
theorem C7_fetch_page (minLen : Nat) (http : Str → HttpResult) (url : Str) :
    (∀ m, http url = .exn m →
      fetch_page minLen http url = (none, some ("fetch_error: ".data ++ m))) ∧
    (∀ m, http url = .parseExn m →
      fetch_page minLen http url = (none, some ("extract_error: ".data ++ m))) ∧
    (∀ article paras, http url = .page article paras →
      (pageText article paras = [] ∨ (pageText article paras).length < minLen) →
      fetch_page minLen http url = (none, none)) ∧
    (∀ article paras, http url = .page article paras →
      pageText article paras ≠ [] → ¬ (pageText article paras).length < minLen →
      fetch_page minLen http url = (some ((pageText article paras).take 6000), none)) ∧
    (∀ t, (fetch_page minLen http url).1 = some t → t.length ≤ 6000) := by
  refine ⟨?_, ?_, ?_, ?_, ?_⟩
  · intro m h
    simp [fetch_page, h]
  · intro m h
    simp [fetch_page, h]
  · intro article paras h hshort
    rcases hshort with h2 | h2 <;> simp [fetch_page, h, h2]
  · intro article paras h h1 h2
    simp [fetch_page, h, h1, h2]
  · intro t ht
    cases hh : http url with
    | exn m => simp [fetch_page, hh] at ht
    | parseExn m => simp [fetch_page, hh] at ht
    | page article paras =>
      simp only [fetch_page, hh] at ht
      split at ht
      · simp at ht
      · simp only [Prod.fst, Option.some.injEq] at ht
        rw [← ht]
        simp [List.length_take]

/-- C7 (witness): a request exception at a concrete URL. -/
theorem C7_fetch_page_witness :
    fetch_page 150 (fun _ => HttpResult.exn "timeout".data) "http://x.com/a".data
      = (none, some ("fetch_error: ".data ++ "timeout".data)) :=
  (C7_fetch_page 150 (fun _ => HttpResult.exn "timeout".data) "http://x.com/a".data).1
    "timeout".data rfl

/-- C8: `summarize` maps every oracle outcome to a value: any exception in
the generative path falls back to the deterministic extractive summary of
the same text, the unconfigured path takes the deterministic summary
directly, and the deterministic path returns the empty string on empty
input. -/
theorem C8_summarize_never_raises (apiKey : Str) (gavail : Bool)
    (gem : Str → GemOutcome) (title text : Str) :
    (∀ m, gem (geminiPrompt title text) = .raised m →
      summarize apiKey gavail gem title text = simple_extractive_summary text 3) ∧
    ((apiKey = [] ∨ gavail = false) →
      summarize apiKey gavail gem title text = simple_extractive_summary text 3) ∧
    simple_extractive_summary [] 3 = [] := by
  refine ⟨?_, ?_, by decide⟩
  · intro m h
    rcases eq_or_ne apiKey [] with hk | hk
    · simp [summarize, hk]
    · cases hg : gavail
      · simp [summarize, hg]
      · simp [summarize, hk, hg, h]
  · intro hor
    rcases hor with hk | hg
    · simp [summarize, hk]
    · simp [summarize, hg]

/-- C8 (witness): a raised quota error at concrete inputs falls back to the
extractive summary. -/
theorem C8_summarize_never_raises_witness :
    summarize "key".data true (fun _ => GemOutcome.raised "quota".data) "T".data
        "One. Two. Three.".data
      = simple_extractive_summary "One. Two. Three.".data 3 :=
  (C8_summarize_never_raises "key".data true (fun _ => GemOutcome.raised "quota".data)
      "T".data "One. Two. Three.".data).1 "quota".data rfl

/-- Membership in an `insertLex` insertion. -/
theorem mem_insertLex {s t : Str} {l : List Str} :
    s ∈ insertLex t l ↔ s = t ∨ s ∈ l := by
  induction l with
  | nil => simp [insertLex]
  | cons x xs ih =>
    simp only [insertLex]
    split
    · simp
    · simp [ih]
      tauto

/-- `sortStrings` preserves membership. -/
theorem mem_sortStrings {s : Str} {l : List Str} : s ∈ sortStrings l ↔ s ∈ l := by
  induction l with
  | nil => simp [sortStrings]
  | cons x xs ih => simp [sortStrings, mem_insertLex, ih]

/-- Reading back the string members of a written string array is the
identity. -/
theorem filterMap_str_map (l : List Str) :
    (l.map Json.str).filterMap
      (fun j => match j with | .str s => some s | _ => none) = l := by
  induction l with
  | nil => rfl
  | cons x xs ih => simp [ih]

/-- C9: with persistence enabled and I/O succeeding, saving a `DedupSet`
and reloading it yields the same set of URLs (order-independent
equality); and a load from an absent file, unparseable contents, or any
non-list JSON value yields the empty set. -/
theorem C9_dedup_roundtrip :
    (∀ (sent : List Str) (u : Str),
      u ∈ load_sent_set true (some (some (save_sent_set sent))) ↔ u ∈ sent) ∧
    load_sent_set true none = [] ∧
    load_sent_set true (some none) = [] ∧
    (∀ j : Json, (∀ l, j ≠ .arr l) → load_sent_set true (some (some j)) = []) := by
  refine ⟨?_, rfl, rfl, ?_⟩
  · intro sent u
    show u ∈ ((sortStrings sent.dedup).map Json.str).filterMap
        (fun j => match j with | .str s => some s | _ => none) ↔ u ∈ sent
    rw [filterMap_str_map]
    rw [mem_sortStrings]
    exact List.mem_dedup
  · intro j hj
    cases j with
    | arr l => exact absurd rfl (hj l)
    | null => rfl
    | bool b => rfl
    | num n => rfl
    | str s => rfl
    | obj l => rfl

/-- C9 (witness): a concrete round trip and a concrete non-list load. -/
theorem C9_dedup_roundtrip_witness :
    ("a".data ∈ load_sent_set true (some (some (save_sent_set ["b".data, "a".data]))) ↔
      "a".data ∈ ["b".data, "a".data]) ∧
    load_sent_set true (some (some (Json.num 3))) = [] :=
  ⟨C9_dedup_roundtrip.1 ["b".data, "a".data] "a".data,
   C9_dedup_roundtrip.2.2.2 (Json.num 3) (fun _ h => Json.noConfusion h)⟩

/-- The per-candidate loop only appends to its accumulator. -/
theorem collectLoop_items_prefix (env : Env) (mi : Nat) (sent : List Str) :
    ∀ (cands : List (Nat × Entry)) (acc : List Item) (log : List Str),
      ∃ ext, (collectLoop env mi sent cands acc log).items = acc ++ ext := by
  intro cands
  induction cands with
  | nil =>
    intro acc log
    exact ⟨[], by simp [collectLoop]⟩
  | cons c rest ih =>
    intro acc log
    obtain ⟨p, e⟩ := c
    by_cases h1 : acc.length ≥ mi
    · exact ⟨[], by simp [collectLoop, h1]⟩
    · by_cases h2 : pyUrl e = []
      · simpa [collectLoop, h1, h2] using ih acc log
      · by_cases h3 : pyUrl e ∈ sent
        · simpa [collectLoop, h1, h2, h3] using ih acc log
        · cases heff : effText env e with
          | none =>
            simpa [collectLoop, h1, h2, h3, heff] using ih acc (log ++ [pyUrl e])
          | some x =>
            cases hpf : (passes_filters env.cfg e (some x)).1 with
            | false =>
              simpa [collectLoop, h1, h2, h3, heff, hpf] using
                ih acc (log ++ [pyUrl e])
            | true =>
              obtain ⟨ext, hext⟩ := ih
                (acc ++ [⟨resolveTitle e, pyUrl e,
                  summarize env.apiKey env.geminiAvailable env.gem (resolveTitle e) x, p⟩])
                (log ++ [pyUrl e])
              refine ⟨⟨resolveTitle e, pyUrl e,
                summarize env.apiKey env.geminiAvailable env.gem (resolveTitle e) x, p⟩ :: ext, ?_⟩
              simp only [collectLoop, h1, h2, h3, heff, hpf, if_true, if_false]
              rw [hext]
              simp

/-- Loop invariant: every produced item URL and every fetched URL is
non-empty and not in the `DedupSet` the run started with. -/
theorem collectLoop_inv (env : Env) (mi : Nat) (sent : List Str) :
    ∀ (cands : List (Nat × Entry)) (acc : List Item) (log : List Str),
      (∀ it ∈ acc, it.url ≠ [] ∧ it.url ∉ sent) →
      (∀ u ∈ log, u ≠ [] ∧ u ∉ sent) →
      (∀ it ∈ (collectLoop env mi sent cands acc log).items,
          it.url ≠ [] ∧ it.url ∉ sent) ∧
      (∀ u ∈ (collectLoop env mi sent cands acc log).fetched,
          u ≠ [] ∧ u ∉ sent) := by
  intro cands
  induction cands with
  | nil =>
    intro acc log ha hl
    simpa [collectLoop] using ⟨ha, hl⟩
  | cons c rest ih =>
    intro acc log ha hl
    obtain ⟨p, e⟩ := c
    by_cases h1 : acc.length ≥ mi
    · simpa [collectLoop, h1] using ⟨ha, hl⟩
    · by_cases h2 : pyUrl e = []
      · simpa [collectLoop, h1, h2] using ih acc log ha hl
      · by_cases h3 : pyUrl e ∈ sent
        · simpa [collectLoop, h1, h2, h3] using ih acc log ha hl
        · have hl2 : ∀ u ∈ log ++ [pyUrl e], u ≠ [] ∧ u ∉ sent := by
            intro u hu
            rcases List.mem_append.1 hu with h | h
            · exact hl u h
            · simp only [List.mem_singleton] at h
              subst h
              exact ⟨h2, h3⟩
          cases heff : effText env e with
          | none =>
            simpa [collectLoop, h1, h2, h3, heff] using
              ih acc (log ++ [pyUrl e]) ha hl2
          | some x =>
            cases hpf : (passes_filters env.cfg e (some x)).1 with
            | false =>
              simpa [collectLoop, h1, h2, h3, heff, hpf] using
                ih acc (log ++ [pyUrl e]) ha hl2
            | true =>
              have ha2 : ∀ it ∈ acc ++ [⟨resolveTitle e, pyUrl e,
                  summarize env.apiKey env.geminiAvailable env.gem (resolveTitle e) x, p⟩],
                  it.url ≠ [] ∧ it.url ∉ sent := by
                intro it hit
                rcases List.mem_append.1 hit with h | h
                · exact ha it h
                · simp only [List.mem_singleton] at h
                  subst h
                  exact ⟨h2, h3⟩
              simpa [collectLoop, h1, h2, h3, heff, hpf] using
                ih (acc ++ [⟨resolveTitle e, pyUrl e,
                  summarize env.apiKey env.geminiAvailable env.gem (resolveTitle e) x, p⟩])
                  (log ++ [pyUrl e]) ha2 hl2

/-- If every remaining candidate is skipped under `sent`, the loop adds
nothing to its accumulator. -/
theorem collectLoop_of_skips (env : Env) (mi : Nat) (sent : List Str) :
    ∀ (cands : List (Nat × Entry)) (acc : List Item) (log : List Str),
      (∀ c ∈ cands, ¬ acceptsCand env sent c.2) →
      (collectLoop env mi sent cands acc log).items = acc := by
  intro cands
  induction cands with
  | nil =>
    intro acc log _
    simp [collectLoop]
  | cons c0 rest ih =>
    intro acc log hskip
    obtain ⟨p, e⟩ := c0
    have hhead : ¬ acceptsCand env sent e := hskip (p, e) (by simp)
    have hrest : ∀ c ∈ rest, ¬ acceptsCand env sent c.2 :=
      fun c hc => hskip c (by simp [hc])
    by_cases h1 : acc.length ≥ mi
    · simp [collectLoop, h1]
    · by_cases h2 : pyUrl e = []
      · simpa [collectLoop, h1, h2] using ih acc log hrest
      · by_cases h3 : pyUrl e ∈ sent
        · simpa [collectLoop, h1, h2, h3] using ih acc log hrest
        · cases heff : effText env e with
          | none =>
            simpa [collectLoop, h1, h2, h3, heff] using
              ih acc (log ++ [pyUrl e]) hrest
          | some x =>
            cases hpf : (passes_filters env.cfg e (some x)).1 with
            | false =>
              simpa [collectLoop, h1, h2, h3, heff, hpf] using
                ih acc (log ++ [pyUrl e]) hrest
            | true =>
              exact absurd ⟨h2, h3, x, heff, hpf⟩ hhead

/-- When the loop ends below the target count, it examined every candidate:
each one was either skipped for a `sent`-independent-or-monotone reason or
its URL is among the produced item URLs. -/
theorem collectLoop_coverage (env : Env) (mi : Nat) (sent : List Str) :
    ∀ (cands : List (Nat × Entry)) (acc : List Item) (log : List Str),
      (collectLoop env mi sent cands acc log).items.length < mi →
      ∀ c ∈ cands, ¬ acceptsCand env sent c.2 ∨
        pyUrl c.2 ∈ (collectLoop env mi sent cands acc log).items.map
          (fun it => it.url) := by
  intro cands
  induction cands with
  | nil =>
    intro acc log _ c hc
    cases hc
  | cons c0 rest ih =>
    intro acc log hlen c hc
    obtain ⟨p, e⟩ := c0
    by_cases h1 : acc.length ≥ mi
    · exfalso
      have heq : (collectLoop env mi sent ((p, e) :: rest) acc log).items = acc := by
        simp [collectLoop, h1]
      rw [heq] at hlen
      omega
    · by_cases h2 : pyUrl e = []
      · have heq : collectLoop env mi sent ((p, e) :: rest) acc log
            = collectLoop env mi sent rest acc log := by
          simp [collectLoop, h1, h2]
        rw [heq] at hlen ⊢
        rcases List.mem_cons.1 hc with hceq | hcr
        · subst hceq
          left
          rintro ⟨hA, _, _⟩
          exact hA h2
        · exact ih acc log hlen c hcr
      · by_cases h3 : pyUrl e ∈ sent
        · have heq : collectLoop env mi sent ((p, e) :: rest) acc log
              = collectLoop env mi sent rest acc log := by
            simp [collectLoop, h1, h2, h3]
          rw [heq] at hlen ⊢
          rcases List.mem_cons.1 hc with hceq | hcr
          · subst hceq
            left
            rintro ⟨_, hB, _⟩
            exact hB h3
          · exact ih acc log hlen c hcr
        · cases heff : effText env e with
          | none =>
            have heq : collectLoop env mi sent ((p, e) :: rest) acc log
                = collectLoop env mi sent rest acc (log ++ [pyUrl e]) := by
              simp [collectLoop, h1, h2, h3, heff]
            rw [heq] at hlen ⊢
            rcases List.mem_cons.1 hc with hceq | hcr
            · subst hceq
              left
              rintro ⟨_, _, x, hx, _⟩
              rw [heff] at hx
              cases hx
            · exact ih acc (log ++ [pyUrl e]) hlen c hcr
          | some x =>
            cases hpf : (passes_filters env.cfg e (some x)).1 with
            | false =>
              have heq : collectLoop env mi sent ((p, e) :: rest) acc log
                  = collectLoop env mi sent rest acc (log ++ [pyUrl e]) := by
                simp [collectLoop, h1, h2, h3, heff, hpf]
              rw [heq] at hlen ⊢
              rcases List.mem_cons.1 hc with hceq | hcr
              · subst hceq
                left
                rintro ⟨_, _, x2, hx2, hp2⟩
                rw [heff] at hx2
                cases hx2
                rw [hp2] at hpf
                cases hpf
              · exact ih acc (log ++ [pyUrl e]) hlen c hcr
            | true =>
              have heq : collectLoop env mi sent ((p, e) :: rest) acc log
                  = collectLoop env mi sent rest
                      (acc ++ [⟨resolveTitle e, pyUrl e,
                        summarize env.apiKey env.geminiAvailable env.gem
                          (resolveTitle e) x, p⟩])
                      (log ++ [pyUrl e]) := by
                simp [collectLoop, h1, h2, h3, heff, hpf]
              rw [heq] at hlen ⊢
              rcases List.mem_cons.1 hc with hceq | hcr
              · subst hceq
                right
                obtain ⟨ext, hext⟩ := collectLoop_items_prefix env mi sent rest
                  (acc ++ [⟨resolveTitle e, pyUrl e,
                    summarize env.apiKey env.geminiAvailable env.gem
                      (resolveTitle e) x, p⟩])
                  (log ++ [pyUrl e])
                rw [hext]
                exact List.mem_map.2 ⟨⟨resolveTitle e, pyUrl e,
                  summarize env.apiKey env.geminiAvailable env.gem
                    (resolveTitle e) x, p⟩, by simp, rfl⟩
              · exact ih _ (log ++ [pyUrl e]) hlen c hcr

/-- Membership in an `insertCandDesc` insertion. -/
theorem mem_insertCandDesc {c d : Nat × Entry} {l : List (Nat × Entry)} :
    c ∈ insertCandDesc d l ↔ c = d ∨ c ∈ l := by
  induction l with
  | nil => simp [insertCandDesc]
  | cons x xs ih =>
    simp only [insertCandDesc]
    split
    · simp [List.mem_cons]
    · simp only [List.mem_cons, ih]
      tauto

/-- Membership through the sorting fold. -/
theorem mem_sortCandsDesc_foldl :
    ∀ (l acc : List (Nat × Entry)) (c : Nat × Entry),
      c ∈ l.foldl (fun acc x => insertCandDesc x acc) acc ↔ c ∈ acc ∨ c ∈ l := by
  intro l
  induction l with
  | nil =>
    intro acc c
    simp
  | cons x xs ih =>
    intro acc c
    simp only [List.foldl_cons]
    rw [ih]
    rw [mem_insertCandDesc]
    simp only [List.mem_cons]
    tauto

/-- The stable sort preserves membership. -/
theorem mem_sortCandsDesc {c : Nat × Entry} {l : List (Nat × Entry)} :
    c ∈ sortCandsDesc l ↔ c ∈ l := by
  unfold sortCandsDesc
  rw [mem_sortCandsDesc_foldl]
  simp

/-- Membership in one feed's candidate contribution. -/
theorem mem_feedCandidates {m now : Nat} {f : Option (List Entry)}
    {c : Nat × Entry} :
    c ∈ feedCandidates m now f ↔
      ∃ es, f = some es ∧ c.2 ∈ es.take m ∧ c.1 = resolvePublished now c.2 := by
  cases f with
  | none => simp [feedCandidates]
  | some es =>
    simp only [feedCandidates, List.mem_map, Option.some.injEq]
    constructor
    · rintro ⟨e, he, heq⟩
      refine ⟨es, rfl, ?_, ?_⟩
      · rw [← heq]
        exact he
      · rw [← heq]
    · rintro ⟨es2, hes, h2, h3⟩
      subst hes
      refine ⟨c.2, h2, ?_⟩
      obtain ⟨c1, c2⟩ := c
      simp only at h3
      simp [h3]

/-- The gathering fold, described by membership. -/
theorem mem_gatherCandidates_foldl (m now : Nat) :
    ∀ (feeds : List (Option (List Entry))) (acc : List (Nat × Entry))
      (c : Nat × Entry),
      c ∈ feeds.foldl (fun acc f => acc ++ feedCandidates m now f) acc ↔
        c ∈ acc ∨ ∃ f ∈ feeds, c ∈ feedCandidates m now f := by
  intro feeds
  induction feeds with
  | nil =>
    intro acc c
    simp
  | cons f fs ih =>
    intro acc c
    simp only [List.foldl_cons]
    rw [ih]
    simp only [List.mem_append, List.mem_cons]
    constructor
    · rintro ((h | h) | ⟨g, hg, hcg⟩)
      · exact Or.inl h
      · exact Or.inr ⟨f, Or.inl rfl, h⟩
      · exact Or.inr ⟨g, Or.inr hg, hcg⟩
    · rintro (h | ⟨g, hg | hg, hcg⟩)
      · exact Or.inl (Or.inl h)
      · subst hg
        exact Or.inl (Or.inr hcg)
      · exact Or.inr ⟨g, hg, hcg⟩

/-- Membership in the gathered candidate list. -/
theorem mem_gatherCandidates {m now : Nat} {feeds : List (Option (List Entry))}
    {c : Nat × Entry} :
    c ∈ gatherCandidates m now feeds ↔
      ∃ es, some es ∈ feeds ∧ c.2 ∈ es.take m ∧ c.1 = resolvePublished now c.2 := by
  unfold gatherCandidates
  rw [mem_gatherCandidates_foldl]
  simp only [List.not_mem_nil, false_or]
  constructor
  · rintro ⟨f, hf, hcf⟩
    obtain ⟨es, rfl, h2, h3⟩ := mem_feedCandidates.1 hcf
    exact ⟨es, hf, h2, h3⟩
  · rintro ⟨es, hes, h2, h3⟩
    exact ⟨some es, hes, mem_feedCandidates.2 ⟨es, rfl, h2, h3⟩⟩

/-- An entry appearing among the sorted candidates for one collection time
also appears there for any other collection time (with its timestamp
resolved for that time). -/
theorem sortedCands_entry_transfer {m now1 now2 : Nat}
    {feeds : List (Option (List Entry))} {c : Nat × Entry}
    (h : c ∈ sortCandsDesc (gatherCandidates m now2 feeds)) :
    (resolvePublished now1 c.2, c.2) ∈
      sortCandsDesc (gatherCandidates m now1 feeds) := by
  rw [mem_sortCandsDesc] at h ⊢
  rw [mem_gatherCandidates] at h ⊢
  obtain ⟨es, hes, h2, _⟩ := h
  exact ⟨es, hes, h2, rfl⟩

/-- Saving and reloading preserves `DedupSet` membership. -/
theorem mem_load_save {l : List Str} {u : Str} :
    u ∈ load_sent_set true (some (some (save_sent_set l))) ↔ u ∈ l := by
  show u ∈ ((sortStrings l.dedup).map Json.str).filterMap
      (fun j => match j with | .str s => some s | _ => none) ↔ u ∈ l
  rw [filterMap_str_map]
  rw [mem_sortStrings]
  exact List.mem_dedup

/-- Membership in the `DedupSet` a later run loads after a successful run:
the old set plus the accepted URLs. -/
theorem mem_persistedSent {sent : List Str} {items : List Item} {u : Str} :
    u ∈ persistedSent sent items ↔
      u ∈ sent ∨ u ∈ items.map (fun it => it.url) := by
  unfold persistedSent
  rw [mem_load_save]
  unfold sentAfterRun
  exact List.mem_append

/-- A candidate skipped under a `DedupSet` stays skipped under any larger
one. -/
theorem not_acceptsCand_mono {env : Env} {sent sent2 : List Str} {e : Entry}
    (hsub : ∀ u, u ∈ sent → u ∈ sent2) (h : ¬ acceptsCand env sent e) :
    ¬ acceptsCand env sent2 e := by
  rintro ⟨hA, hB, hC⟩
  exact h ⟨hA, fun hin => hB (hsub _ hin), hC⟩

/-- C1 (counterexample): with two qualifying candidates and a target of
one item, the first run accepts one item and stops at the cap; the second
run, against the `DedupSet` persisted after a successful non-dry-run
delivery, accepts the remaining candidate, so its result list is not
empty. -/
theorem C1_counterexample :
    (collect_and_summarize c1Env [some [c1EntryA, c1EntryB]] 0 25 1 []).items.map
        (fun it => it.url) = ["http://thehindu.com/a".data] ∧
    (collect_and_summarize c1Env [some [c1EntryA, c1EntryB]] 0 25 1
        (persistedSent []
          (collect_and_summarize c1Env [some [c1EntryA, c1EntryB]] 0 25 1
            []).items)).items.map (fun it => it.url)
      = ["http://thehindu.com/b".data] := by
  refine ⟨by decide, by decide⟩

/-- C1 (amended): for an unchanged feed state and fetch behaviour, if the
first run accepted fewer items than the target maximum (it did not stop
early at the cap), then a second run against the `DedupSet` persisted from
the first run (persistence enabled, non-dry-run, delivery succeeded)
accepts zero items: its result list is empty. -/
theorem C1_second_run_empty (env : Env) (feeds : List (Option (List Entry)))
    (now1 now2 maxPerFeed maxItems : Nat) (sent : List Str)
    (h : (collect_and_summarize env feeds now1 maxPerFeed maxItems sent).items.length
        < maxItems) :
    (collect_and_summarize env feeds now2 maxPerFeed maxItems
      (persistedSent sent
        (collect_and_summarize env feeds now1 maxPerFeed maxItems
          sent).items)).items = [] := by
  show (collectLoop env maxItems
      (persistedSent sent
        (collect_and_summarize env feeds now1 maxPerFeed maxItems sent).items)
      (sortCandsDesc (gatherCandidates maxPerFeed now2 feeds)) [] []).items = []
  apply collectLoop_of_skips
  intro c hc
  have hc1 : (resolvePublished now1 c.2, c.2) ∈
      sortCandsDesc (gatherCandidates maxPerFeed now1 feeds) :=
    sortedCands_entry_transfer hc
  have h1 : (collectLoop env maxItems sent
      (sortCandsDesc (gatherCandidates maxPerFeed now1 feeds)) [] []).items.length
      < maxItems := h
  have hcov := collectLoop_coverage env maxItems sent
    (sortCandsDesc (gatherCandidates maxPerFeed now1 feeds)) [] [] h1
    (resolvePublished now1 c.2, c.2) hc1
  rcases hcov with hno | hin
  · exact not_acceptsCand_mono (fun u hu => mem_persistedSent.2 (Or.inl hu)) hno
  · rintro ⟨hA, hB, hC⟩
    apply hB
    apply mem_persistedSent.2
    right
    exact hin

/-- C1 (witness): a concrete uncapped first run followed by an empty second
run. -/
theorem C1_second_run_empty_witness :
    (collect_and_summarize c1Env [some [c1EntryA, c1EntryB]] 0 25 10
      (persistedSent []
        (collect_and_summarize c1Env [some [c1EntryA, c1EntryB]] 0 25 10
          []).items)).items = [] :=
  C1_second_run_empty c1Env [some [c1EntryA, c1EntryB]] 0 0 25 10 [] (by decide)

/-- C6: every URL the run hands to the fetcher is non-empty and not in the
`DedupSet` loaded at the start of the run — the empty-URL and already-sent
skips happen before any fetch, and hence before the filter and summarize
work that only follow a fetch — and consequently every returned
`DigestItem` has a non-empty URL that is not in the loaded `DedupSet`. -/
theorem C6_skip_before_work (env : Env) (feeds : List (Option (List Entry)))
    (now maxPerFeed maxItems : Nat) (sent : List Str) :
    (∀ u ∈ (collect_and_summarize env feeds now maxPerFeed maxItems sent).fetched,
        u ≠ [] ∧ u ∉ sent) ∧
    (∀ it ∈ (collect_and_summarize env feeds now maxPerFeed maxItems sent).items,
        it.url ≠ [] ∧ it.url ∉ sent) := by
  have h := collectLoop_inv env maxItems sent
    (sortCandsDesc (gatherCandidates maxPerFeed now feeds)) [] []
    (by intro it hit; cases hit) (by intro u hu; cases hu)
  exact ⟨h.2, h.1⟩

/-- C6 (witness): the item accepted by a concrete run has a non-empty URL
outside the loaded `DedupSet`. -/
theorem C6_skip_before_work_witness :
    c6Item.url ≠ [] ∧ c6Item.url ∉ ["http://old.com/z".data] :=
  (C6_skip_before_work c6Env [some [c6E]] 0 25 10 ["http://old.com/z".data]).2
    c6Item (by decide)

/-- C10: the Digest Collector performs no intra-run URL deduplication: the
`DedupSet` is not updated while the candidate loop runs, so a single run
over two feeds that both carry the same non-empty, not-previously-sent,
filter-passing URL returns two `DigestItem`s with that URL. -/
theorem C10_duplicate_urls_in_one_run :
    (collect_and_summarize c10Env [some [c10E1], some [c10E2]] 0 25 10 []).items.map
        (fun it => it.url)
      = ["http://thehindu.com/a".data, "http://thehindu.com/a".data] := by
  decide
